import Mathlib

/-!
Shallow embedding of the CopyAI single-page application (`src/app/page.tsx`).

The page keeps four pieces of state relevant to the verified claims:
prompt cards, saved layouts, and a document library of folders and files.
All handlers are synchronous functional updates on that state; we model
them as pure functions.  JavaScript's `Date.now()` is passed in as an
explicit `now : Int` parameter and the results of `prompt`/`confirm`
dialogs are passed as arguments.  JSON values are modelled by an
inductive `Json` type whose numbers are integers (all timestamps in the
program are integral epoch milliseconds); `JSON.parse` failure is
modelled by feeding `Option Json` with `none` for the exception branch.
-/

namespace CopyAI

/-- JSON values as produced by `JSON.parse`.  Numbers are modelled as
integers; `undefined` (absent property) is represented by `Option.none`
at use sites. -/
inductive Json where
  | null : Json
  | bool : Bool → Json
  | num : Int → Json
  | str : String → Json
  | arr : List Json → Json
  | obj : List (String × Json) → Json
deriving Repr, BEq

/-- Property access `data.key`: `some` value for an object that has the
key, `none` (JS `undefined`) otherwise. -/
def jsGet (j : Json) (key : String) : Option Json :=
  match j with
  | .obj fields => (fields.find? (fun kv => kv.1 = key)).map (fun kv => kv.2)
  | _ => none

/-- `Array.isArray` on a possibly-absent value: the element list when
the value is an array, `none` otherwise. -/
def jsArr : Option Json → Option (List Json)
  | some (.arr xs) => some xs
  | _ => none

/-- JavaScript truthiness of a parsed JSON value. -/
def truthy : Json → Bool
  | .null => false
  | .bool b => b
  | .num n => n != 0
  | .str s => s != ""
  | .arr _ => true
  | .obj _ => true

/-- ASCII whitespace, the whitespace the program's inputs contain. -/
def jsIsWs (c : Char) : Bool :=
  c == ' ' || c == '\t' || c == '\n' || c == '\r'

/-- JS `String.prototype.trim`. -/
def jsTrim (s : String) : String :=
  ⟨((s.data.dropWhile jsIsWs).reverse.dropWhile jsIsWs).reverse⟩

/-- Join strings with a separator (`Array.prototype.join`). -/
def joinWith (sep : String) : List String → String
  | [] => ""
  | [x] => x
  | x :: rest => x ++ sep ++ joinWith sep rest

mutual
/-- `String(x)` coercion on a parsed JSON value.  Arrays stringify by
joining their elements with commas (`Array.prototype.toString`), with
`null` elements contributing the empty string; plain objects stringify
to `"[object Object]"`. -/
def jsString : Json → String
  | .null => "null"
  | .bool b => if b then "true" else "false"
  | .num n => toString n
  | .str s => s
  | .arr xs => joinWith "," (jsStringList xs)
  | .obj _ => "[object Object]"

def jsStringList : List Json → List String
  | [] => []
  | .null :: rest => "" :: jsStringList rest
  | v :: rest => jsString v :: jsStringList rest
end

/-- `x ?? d` followed by `String(_)`: the JS pattern `String(v ?? d)`
where `v` is a (possibly absent) property. -/
def jsCoalesceString (v : Option Json) (d : String) : String :=
  match v with
  | none => d
  | some .null => d
  | some j => jsString j

/-- Decimal digits to a natural number. -/
def digitsToNat (acc : Nat) : List Char → Nat
  | [] => acc
  | c :: rest => digitsToNat (acc * 10 + (c.toNat - '0'.toNat)) rest

/-- Signed decimal integer strings, the only numeric-string shape the
program ever produces; used to model `+x` number coercion on strings.
Strings that are not of this shape coerce to NaN (`none`). -/
def strToIntOpt (s : String) : Option Int :=
  let t := (jsTrim s).data
  if t = [] then some 0
  else if t.all (fun c => c.isDigit) then some (Int.ofNat (digitsToNat 0 t))
  else
    match t with
    | '-' :: (d :: ds) =>
        if (d :: ds).all (fun c => c.isDigit) then
          some (-(Int.ofNat (digitsToNat 0 (d :: ds))))
        else none
    | _ => none

/-- Unary `+` coercion to a number of a possibly-absent JSON value,
returning `none` for NaN (so `Number.isFinite (+x)` is
`(toNumOpt x).isSome`).  Arrays coerce through their string form, plain
objects stringify to `"[object Object]"` and coerce to NaN. -/
def toNumOpt : Option Json → Option Int
  | none => none
  | some .null => some 0
  | some (.bool b) => some (if b then 1 else 0)
  | some (.num n) => some n
  | some (.str s) => strToIntOpt s
  | some (.arr xs) => strToIntOpt (jsString (.arr xs))
  | some (.obj _) => none

/-! ### The data model (`type Card`, `LayoutEntry`, `DocFolder`, `DocFile`) -/

structure Card where
  id : String
  title : String
  text : String
  createdAt : Int
deriving Repr, DecidableEq

structure LayoutEntry where
  id : String
  title : String
  savedAt : Int
  cards : List Card
deriving Repr, DecidableEq

structure DocFolder where
  id : String
  name : String
  createdAt : Int
deriving Repr, DecidableEq

structure DocFile where
  id : String
  name : String
  content : String
  createdAt : Int
  updatedAt : Int
  folderId : Option String
deriving Repr, DecidableEq

structure DocumentLibrary where
  folders : List DocFolder
  files : List DocFile
deriving Repr, DecidableEq

/-- The component state touched by the verified handlers. -/
structure PageState where
  cards : List Card
  title : String
  text : String
  editingId : Option String
  editTitle : String
  editText : String
  layouts : List LayoutEntry
  currentLayoutTitle : String
deriving Repr, DecidableEq

/-- The `'all' | 'unfiled' | <folder id>` target used by upload/move. -/
inductive FolderTarget where
  | all : FolderTarget
  | unfiled : FolderTarget
  | folder : String → FolderTarget
deriving Repr, DecidableEq

/-- `target === 'unfiled' || target === 'all' ? null : target`. -/
def FolderTarget.toId : FolderTarget → Option String
  | .all => none
  | .unfiled => none
  | .folder id => some id

/-! ### Suffix-increment loops

`nextUniqueTitle`, `createFolder`/`renameFolder` and both import
normalizers run `while (taken.has(t)) t = t + '-2'`: the candidate grows
at every step, so the loop terminates (the measure is the number of
taken names at least as long as the candidate).  By contrast
`uniqueFileName`/`uniqueNameForImport` recompute the *same* candidate
`stem + '-2' + ext` on every iteration, so that loop is modelled with
explicit fuel and can genuinely fail to terminate. -/

/-- One unfolding budget step of `while (taken.has(t)) t = t + '-2'`. -/
def addSuffixesFuel (taken : List String) : Nat → String → String
  | 0, t => t
  | fuel + 1, t => if t ∈ taken then addSuffixesFuel taken fuel (t ++ "-2") else t

/-- `while (taken.has(t)) t = t + '-2'` — the growing-suffix loop shared
by `nextUniqueTitle`, folder naming, and layout-title import.  The loop
terminates because the candidate strictly grows: it can stay inside
`taken` for at most as many steps as there are taken names at least as
long as the start candidate, so `taken.length + 1` unfoldings always
reach the exit condition (`addSuffixes_not_mem` below proves the
result is indeed a free name). -/
def addSuffixes (taken : List String) (t : String) : String :=
  addSuffixesFuel taken (taken.length + 1) t

/-- Appending `-2` makes a taken candidate leave the (finite) multiset
of taken names at least as long as it: the termination measure of the
suffix loop. -/
theorem suffix_measure_decrease (taken : List String) (t : String) (hmem : t ∈ taken) :
    (taken.filter (fun s => (t ++ "-2").length ≤ s.length)).length
      < (taken.filter (fun s => t.length ≤ s.length)).length := by
  have hlen : t.length < (t ++ "-2").length := by
    simp only [String.length_append]
    have : "-2".length = 2 := by decide
    omega
  have hsub : taken.filter (fun s => (t ++ "-2").length ≤ s.length)
      = (taken.filter (fun s => t.length ≤ s.length)).filter
          (fun s => (t ++ "-2").length ≤ s.length) := by
    rw [List.filter_filter]
    apply List.filter_congr
    intro s _
    by_cases hp : (t ++ "-2").length ≤ s.length
    · have hq : t.length ≤ s.length := by omega
      simp [hp, hq]
    · simp [hp]
      omega
  rw [hsub]
  apply List.length_filter_lt_length_iff_exists.2
  refine ⟨t, ?_, ?_⟩
  · exact List.mem_filter.2 ⟨hmem, by simp⟩
  · intro hcontra
    rw [decide_eq_true_eq] at hcontra
    omega

/-- With more fuel than the measure, the fueled loop exits on a free
name — i.e. the source's `while` loop terminates with a free name. -/
theorem addSuffixesFuel_not_mem (taken : List String) :
    ∀ fuel t, (taken.filter (fun s => t.length ≤ s.length)).length < fuel →
      addSuffixesFuel taken fuel t ∉ taken := by
  intro fuel
  induction fuel with
  | zero => intro t h; omega
  | succ fuel ih =>
      intro t h
      by_cases hmem : t ∈ taken
      · rw [addSuffixesFuel, if_pos hmem]
        apply ih
        have := suffix_measure_decrease taken t hmem
        omega
      · rw [addSuffixesFuel, if_neg hmem]
        exact hmem

/-- The result of the growing-suffix loop is never a taken name. -/
theorem addSuffixes_not_mem (taken : List String) (t : String) :
    addSuffixes taken t ∉ taken := by
  apply addSuffixesFuel_not_mem
  have := List.length_filter_le (fun s => t.length ≤ s.length) taken
  omega

/-- `base.trim() || 'Untitled'` style defaulting. -/
def trimOr (s d : String) : String :=
  if jsTrim s = "" then d else jsTrim s

/-- `nextUniqueTitle` (src/app/page.tsx:160-165): avoid the titles of the
stored layouts by appending `-2` until free. -/
def nextUniqueTitle (layouts : List LayoutEntry) (base : String) : String :=
  addSuffixes (layouts.map (fun l => l.title)) (trimOr base "Untitled")

/-- JS `name.lastIndexOf('.')` as a character index, `-1` when absent. -/
def lastDot (s : String) : Int :=
  match ((s.toList.enum).filter (fun p => p.2 = '.')).getLast? with
  | some p => Int.ofNat p.1
  | none => -1

/-- The `stem`/`ext` split of `uniqueFileName`: split at the last dot
when its index is positive, else the whole name with empty extension. -/
def splitStemExt (name : String) : String × String :=
  let d := lastDot name
  if d > 0 then
    ((name.toList.take d.toNat).asString, (name.toList.drop d.toNat).asString)
  else (name, "")

/-- The `while (names.has(name)) name = stem + '-2' + ext` loop of
`uniqueFileName`/`uniqueNameForImport`: the candidate is *constant*, so
the loop is modelled with fuel; `none` means it never exits. -/
def fileNameLoop (names : List String) (cand : String) : Nat → String → Option String
  | 0, n => if n ∈ names then none else some n
  | fuel + 1, n => if n ∈ names then fileNameLoop names cand fuel cand else some n

/-- Names taken in a folder: `files.filter(f => f.folderId === folderId).map(f => f.name)`. -/
def namesInFolder (files : List DocFile) (folderId : Option String) : List String :=
  (files.filter (fun f => f.folderId = folderId)).map (fun f => f.name)

/-- `uniqueFileName` (src/app/page.tsx:434-442), with explicit fuel for
its (constant-candidate) while loop. -/
def uniqueFileName (files : List DocFile) (base : String)
    (folderId : Option String) (fuel : Nat) : Option String :=
  let names := namesInFolder files folderId
  let se := splitStemExt base
  fileNameLoop names (se.1 ++ "-2" ++ se.2) fuel base

/-- `uniqueNameForImport` (src/app/page.tsx:556-564): like
`uniqueFileName` but the base is first trimmed and defaulted to
`Imported.txt`. -/
def uniqueNameForImport (files : List DocFile) (base : String)
    (folderId : Option String) (fuel : Nat) : Option String :=
  let names := namesInFolder files folderId
  let name := trimOr base "Imported.txt"
  let se := splitStemExt name
  fileNameLoop names (se.1 ++ "-2" ++ se.2) fuel name

/-- When the file-name loop does return a name, that name is free. -/
theorem fileNameLoop_not_mem (names : List String) (cand : String) :
    ∀ fuel n r, fileNameLoop names cand fuel n = some r → r ∉ names := by
  intro fuel
  induction fuel with
  | zero =>
      intro n r h
      by_cases hn : n ∈ names
      · simp [fileNameLoop, hn] at h
      · simp [fileNameLoop, hn] at h
        subst h; exact hn
  | succ fuel ih =>
      intro n r h
      by_cases hn : n ∈ names
      · rw [fileNameLoop, if_pos hn] at h
        exact ih cand r h
      · rw [fileNameLoop, if_neg hn] at h
        cases h; exact hn

/-- If the constant candidate is itself taken and so is the start name,
the loop never exits, whatever the fuel. -/
theorem fileNameLoop_stuck (names : List String) (cand n : String)
    (hn : n ∈ names) (hc : cand ∈ names) :
    ∀ fuel, fileNameLoop names cand fuel n = none := by
  intro fuel
  induction fuel generalizing n with
  | zero => simp [fileNameLoop, hn]
  | succ fuel ih =>
      rw [fileNameLoop, if_pos hn]
      exact ih cand hc

/-! ### Card and layout handlers (src/app/page.tsx:180-261) -/

/-- `addCard` (src/app/page.tsx:180-194): reject when both trimmed
fields are blank, otherwise append one card at the bottom and clear the
form. -/
def addCardRun (st : PageState) (now : Int) : PageState :=
  let t := jsTrim st.title
  let x := jsTrim st.text
  if t = "" ∧ x = "" then st
  else
    let newCard : Card :=
      { id := "c" ++ toString now
        title := if t = "" then "Untitled" else t
        text := x
        createdAt := now }
    { st with cards := st.cards ++ [newCard], title := "", text := "" }

/-- `saveEdit` (src/app/page.tsx:204-212): rewrite the edited card's
title (defaulted) and text, keep everything else. -/
def saveEditRun (st : PageState) : PageState :=
  match st.editingId with
  | none => st
  | some eid =>
      let t := trimOr st.editTitle "Untitled"
      { st with
        cards := st.cards.map (fun c =>
          if c.id = eid then { c with title := t, text := st.editText } else c)
        editingId := none, editTitle := "", editText := "" }

/-- `removeCard` (src/app/page.tsx:220-224); `confirmed` is the result
of the `confirm` dialog. -/
def removeCardRun (st : PageState) (id : String) (confirmed : Bool) : PageState :=
  if confirmed then { st with cards := st.cards.filter (fun c => c.id ≠ id) } else st

/-- `saveLayout` (src/app/page.tsx:227-243); `promptResult` is the
result of the title prompt (`none` = cancelled, coalesced to `''`). -/
def saveLayoutRun (st : PageState) (promptResult : Option String) (now : Int) : PageState :=
  if st.cards = [] then st
  else
    let base := promptResult.getD ""
    let uniqueTitle := nextUniqueTitle st.layouts base
    let entry : LayoutEntry :=
      { id := "L" ++ toString now, title := uniqueTitle, savedAt := now, cards := st.cards }
    { st with layouts := st.layouts ++ [entry], currentLayoutTitle := uniqueTitle }

/-- `deleteLayout` (src/app/page.tsx:255-261). -/
def deleteLayoutRun (layouts : List LayoutEntry) (id : String) (confirmed : Bool) :
    List LayoutEntry :=
  match layouts.find? (fun l => l.id = id) with
  | none => layouts
  | some _ => if confirmed then layouts.filter (fun l => l.id ≠ id) else layouts

/-! ### Card import/export (src/app/page.tsx:264-303) -/

/-- The JSON value written by `exportJSON` (src/app/page.tsx:264-272):
`JSON.stringify({ cards })`. -/
def cardToJson (c : Card) : Json :=
  .obj [("id", .str c.id), ("title", .str c.title),
        ("text", .str c.text), ("createdAt", .num c.createdAt)]

def exportJSONData (cards : List Card) : Json :=
  .obj [("cards", .arr (cards.map cardToJson))]

/-- The per-record normalization of `importJSON` at index `i`.  Unlike
the layout and document-library importers, this one reads the record's
properties with *bare* access (`c.id`, src/app/page.tsx:292 — no
optional chaining), so on a `null` record — the only JSON value whose
property access throws — it raises a TypeError, modelled as `none`;
every other record (numbers and strings included, which box) is
normalized field-by-field with the fallback defaults. -/
def normCardImport (now : Int) (i : Nat) (c : Json) : Option Card :=
  match c with
  | .null => none
  | _ =>
      some
        { id := jsCoalesceString (jsGet c "id") ("c" ++ toString now ++ toString i)
          title := jsCoalesceString (jsGet c "title") "Untitled"
          text := jsCoalesceString (jsGet c "text") ""
          createdAt :=
            match toNumOpt (jsGet c "createdAt") with
            | some n => n
            | none => now - i }

/-- `data.cards.map((c, i) => ...)` of `importJSON`: a TypeError thrown
by any record aborts the whole map (`none`). -/
def normCardsImport (now : Int) : Nat → List Json → Option (List Card)
  | _, [] => some []
  | i, c :: rest =>
      match normCardImport now i c with
      | none => none
      | some card =>
          match normCardsImport now (i + 1) rest with
          | none => none
          | some cards => some (card :: cards)

/-- The comparator `(a, b) => a.createdAt - b.createdAt` as a stable
ascending sort order (`Array.prototype.sort` is stable, and
`List.insertionSort` is the stable sort by this order). -/
def cardLE (a b : Card) : Prop := a.createdAt ≤ b.createdAt

instance : DecidableRel cardLE := fun a b => Int.decLe a.createdAt b.createdAt

instance : IsTotal Card cardLE := ⟨fun a b => Int.le_total a.createdAt b.createdAt⟩

instance : IsTrans Card cardLE := ⟨fun _ _ _ h h2 => Int.le_trans h h2⟩

/-- `importJSON` (src/app/page.tsx:284-303) acting on the `cards`
state.  `input = none` models a rejected `file.text()`/`JSON.parse`
(the `.catch` branch); an invalid shape alerts and leaves the state
unchanged; otherwise the normalized records replace the cards, sorted
by `createdAt` (oldest at top). -/
def importJSONRun (cards : List Card) (input : Option Json) (now : Int) : List Card :=
  match input with
  | none => cards
  | some data =>
      if truthy data then
        match jsArr (jsGet data "cards") with
        | some xs =>
            match normCardsImport now 0 xs with
            | none => cards
            | some norm => List.insertionSort cardLE norm
        | none => cards
      else cards

/-! ### Layout import (src/app/page.tsx:305-355) -/

/-- The per-card normalization inside `importLibraryLayouts` (the id
fallback embeds both the layout index `li` and the card index `i`). -/
def normLayoutCard (now : Int) (li i : Nat) (c : Json) : Card :=
  { id := jsCoalesceString (jsGet c "id")
      ("c" ++ toString now ++ "_" ++ toString li ++ "_" ++ toString i)
    title := jsCoalesceString (jsGet c "title") "Untitled"
    text := jsCoalesceString (jsGet c "text") ""
    createdAt :=
      match toNumOpt (jsGet c "createdAt") with
      | some n => n
      | none => now - i }

def normLayoutCards (now : Int) (li : Nat) : Nat → List Json → List Card
  | _, [] => []
  | i, c :: rest => normLayoutCard now li i c :: normLayoutCards now li (i + 1) rest

/-- One incoming layout of `importLibraryLayouts`: normalize its cards,
uniquify its title against `taken`, default its `savedAt`. -/
def normLayoutEntry (now : Int) (li : Nat) (taken : List String) (l : Json) : LayoutEntry :=
  let cardsArr :=
    match jsArr (jsGet l "cards") with
    | some cs => List.insertionSort cardLE (normLayoutCards now li 0 cs)
    | none => []
  let title := addSuffixes taken (trimOr (jsCoalesceString (jsGet l "title") "Untitled") "Untitled")
  let savedAt :=
    match toNumOpt (jsGet l "savedAt") with
    | some n => n
    | none => now - li
  { id := "L" ++ toString now ++ "_" ++ toString li
    title := title, savedAt := savedAt, cards := cardsArr }

/-- The fold over incoming layouts: each assigned title is added to the
taken set (`existingTitles.add(title)`) before the next layout is
normalized. -/
def normLayouts (now : Int) : Nat → List String → List Json → List LayoutEntry
  | _, _, [] => []
  | li, taken, l :: rest =>
      let e := normLayoutEntry now li taken l
      e :: normLayouts now (li + 1) (e.title :: taken) rest

/-- `Array.isArray(data) ? data : data?.layouts`, valid when an array. -/
def layoutsIncoming (data : Json) : Option (List Json) :=
  match data with
  | .arr xs => some xs
  | _ => jsArr (jsGet data "layouts")

/-- `importLibraryLayouts` (src/app/page.tsx:305-355) acting on the
`layouts` state: accepts a top-level array or `{ layouts: [...] }`;
invalid JSON (`input = none`), an invalid shape, or an empty incoming
list leave the state unchanged, otherwise the normalized entries are
appended. -/
def importLibraryLayoutsRun (layouts : List LayoutEntry) (input : Option Json)
    (now : Int) : List LayoutEntry :=
  match input with
  | none => layouts
  | some data =>
      match layoutsIncoming data with
      | none => layouts
      | some incoming =>
          let normalized := normLayouts now 0 (layouts.map (fun l => l.title)) incoming
          if normalized = [] then layouts
          else layouts ++ normalized

/-! ### Document library handlers (src/app/page.tsx:392-475) -/

/-- JS `toLowerCase` on the ASCII names the program handles. -/
def lowerStr (s : String) : String := ⟨s.data.map Char.toLower⟩

/-- JS `String.prototype.endsWith`. -/
def strEndsWith (s post : String) : Bool :=
  s.data.reverse.take post.data.length = post.data.reverse

/-- `deleteFolder` (src/app/page.tsx:392-403): drop the folder, move its
files to Unfiled stamping `updatedAt`; `confirmed` is the dialog result. -/
def deleteFolderRun (lib : DocumentLibrary) (folderId : String) (confirmed : Bool)
    (now : Int) : DocumentLibrary :=
  match lib.folders.find? (fun f => f.id = folderId) with
  | none => lib
  | some _ =>
      if confirmed then
        { folders := lib.folders.filter (fun f => f.id ≠ folderId)
          files := lib.files.map (fun file =>
            if file.folderId = some folderId then
              { file with folderId := none, updatedAt := now }
            else file) }
      else lib

/-- `moveFile` (src/app/page.tsx:468-475): just rewrite `folderId` and
`updatedAt` — no renaming against the destination folder. -/
def moveFileRun (lib : DocumentLibrary) (fileId : String) (newFolder : FolderTarget)
    (now : Int) : DocumentLibrary :=
  let folderId := newFolder.toId
  { lib with files := lib.files.map (fun f =>
      if f.id = fileId then { f with folderId := folderId, updatedAt := now } else f) }

/-- `renameFile` (src/app/page.tsx:444-457); `promptResult` is the
prompt dialog result. -/
def renameFileRun (lib : DocumentLibrary) (fileId : String) (promptResult : Option String)
    (now : Int) (fuel : Nat) : Option DocumentLibrary :=
  match lib.files.find? (fun f => f.id = fileId) with
  | none => some lib
  | some file =>
      if jsTrim (promptResult.getD "") = "" ∨ jsTrim (promptResult.getD "") = file.name then
        some lib
      else
        match uniqueFileName lib.files (jsTrim (promptResult.getD "")) file.folderId fuel with
        | none => none
        | some unique =>
            some { lib with files := lib.files.map (fun f =>
              if f.id = fileId then { f with name := unique, updatedAt := now } else f) }

/-- Split a character list into maximal whitespace-free words. -/
def wordsAux (acc : List Char) : List Char → List (List Char)
  | [] => if acc = [] then [] else [acc.reverse]
  | c :: cs =>
      if jsIsWs c then
        if acc = [] then wordsAux [] cs else acc.reverse :: wordsAux [] cs
      else wordsAux (c :: acc) cs

/-- `name.replace(/\s+/g, ' ').trim()`: whitespace runs collapsed to a
single space, then trimmed — i.e. the words joined by single spaces. -/
def collapseWs (s : String) : String :=
  joinWith " " ((wordsAux [] s.data).map (fun cs => ⟨cs⟩))

/-- `f.name.replace(/\s+/g, ' ').trim() || default` of `uploadTxtFiles`. -/
def safeNameOf (name : String) (now : Int) (i : Nat) : String :=
  let w := collapseWs name
  if w = "" then "Document " ++ toString (now + i) ++ ".txt" else w

/-- The per-file body of `uploadTxtFiles`: every file's unique name is
computed against the files present *before* the upload (the handler
closes over `docLib.files`), not against names assigned earlier in the
same batch. -/
def uploadDocs (preFiles : List DocFile) (folderId : Option String) (now : Int)
    (fuel : Nat) : Nat → List (String × String) → Option (List DocFile)
  | _, [] => some []
  | i, (nm, content) :: rest =>
      match uniqueFileName preFiles (safeNameOf nm now i) folderId fuel with
      | none => none
      | some uniqueName =>
          match uploadDocs preFiles folderId now fuel (i + 1) rest with
          | none => none
          | some docs =>
              some ({ id := "D" ++ toString now ++ "_" ++ toString i
                      name := uniqueName
                      content := content
                      createdAt := now
                      updatedAt := now
                      folderId := folderId } :: docs)

/-- `uploadTxtFiles` (src/app/page.tsx:405-432) on a list of
(file name, content) pairs. -/
def uploadTxtFilesRun (lib : DocumentLibrary) (fileList : List (String × String))
    (target : FolderTarget) (now : Int) (fuel : Nat) : Option DocumentLibrary :=
  if fileList.filter (fun f => strEndsWith (lowerStr f.1) ".txt") = [] then some lib
  else
    match uploadDocs lib.files target.toId now fuel 0
        (fileList.filter (fun f => strEndsWith (lowerStr f.1) ".txt")) with
    | none => none
    | some newDocs => some { lib with files := lib.files ++ newDocs }

/-! ### Document library import (src/app/page.tsx:488-554) -/

/-- Truthiness of a possibly-absent property value. -/
def jsTruthy (o : Option Json) : Bool :=
  match o with
  | some v => truthy v
  | none => false

/-- The accepted payload shapes of `importDocLibrary`:
`{ docLib: { folders, files } }` or `{ folders, files }`, selected by
truthiness of the properties. -/
def importDocPayload (data : Json) : Option Json :=
  match jsGet data "docLib" with
  | some dl =>
      if truthy dl ∧ jsTruthy (jsGet dl "folders") ∧ jsTruthy (jsGet dl "files") then
        some dl
      else if jsTruthy (jsGet data "folders") ∧ jsTruthy (jsGet data "files") then
        some data
      else none
  | none =>
      if jsTruthy (jsGet data "folders") ∧ jsTruthy (jsGet data "files") then
        some data
      else none

/-- The folder-normalization fold of `importDocLibrary`: fresh id
`F{now}_{i}`, name uniquified against existing and previously imported
folder names, and the incoming-id → fresh-id map (later entries are
prepended so that a repeated incoming id resolves to its last
occurrence, as with `Map.set`). -/
def normImportFolders (now : Int) : Nat → List String → List (String × String) →
    List Json → List DocFolder × List (String × String)
  | _, _, idMap, [] => ([], idMap)
  | i, taken, idMap, f :: rest =>
      let name := addSuffixes taken
        (trimOr (jsCoalesceString (jsGet f "name") "Imported Folder") "Imported Folder")
      let id := "F" ++ toString now ++ "_" ++ toString i
      let key := jsCoalesceString (jsGet f "id") ("F_in_" ++ toString i)
      let folder : DocFolder :=
        { id := id, name := name
          createdAt := (toNumOpt (jsGet f "createdAt")).getD (now - i) }
      let res := normImportFolders now (i + 1) (name :: taken) ((key, id) :: idMap) rest
      (folder :: res.1, res.2)

/-- `const inFolder = fi?.folderId ?? null;
const mappedFolder = inFolder === null ? null :
(folderIdMap.get(String(inFolder)) ?? null)` — the re-keying of an
incoming file's folder reference: a missing/null `folderId` stays
Unfiled, and an id that misses the map falls back to `null`. -/
def importFileFolder (idMap : List (String × String)) (fi : Json) : Option String :=
  match jsGet fi "folderId" with
  | none => none
  | some .null => none
  | some v =>
      match idMap.find? (fun kv => kv.1 = jsString v) with
      | some kv => some kv.2
      | none => none

/-- The file-normalization loop of `importDocLibrary`: an incoming
`folderId` is mapped through the fresh-id map (unmatched ids fall back
to `null`), and the name is uniquified against the *pre-import* files
of the target folder. -/
def normImportFiles (preFiles : List DocFile) (idMap : List (String × String))
    (now : Int) (fuel : Nat) : Nat → List Json → Option (List DocFile)
  | _, [] => some []
  | i, fi :: rest =>
      match uniqueNameForImport preFiles
          (jsCoalesceString (jsGet fi "name") ("Imported " ++ toString (now + i) ++ ".txt"))
          (importFileFolder idMap fi) fuel with
      | none => none
      | some uniqueName =>
          match normImportFiles preFiles idMap now fuel (i + 1) rest with
          | none => none
          | some docs =>
              some ({ id := "D" ++ toString now ++ "_" ++ toString i
                      name := uniqueName
                      content := jsCoalesceString (jsGet fi "content") ""
                      createdAt := (toNumOpt (jsGet fi "createdAt")).getD (now - i)
                      updatedAt := (toNumOpt (jsGet fi "updatedAt")).getD (now - i)
                      folderId := importFileFolder idMap fi } :: docs)

/-- `importDocLibrary` (src/app/page.tsx:488-554): invalid JSON or an
invalid shape leave the library unchanged; otherwise the re-keyed
folders and files are appended to the existing ones.  `none` models the
divergence of the `uniqueNameForImport` while loop. -/
def importDocLibraryRun (lib : DocumentLibrary) (input : Option Json) (now : Int)
    (fuel : Nat) : Option DocumentLibrary :=
  match input with
  | none => some lib
  | some data =>
      match importDocPayload data with
      | none => some lib
      | some payload =>
          match jsArr (jsGet payload "folders"), jsArr (jsGet payload "files") with
          | some pfolders, some pfiles =>
              let res := normImportFolders now 0 (lib.folders.map (fun f => f.name)) [] pfolders
              match normImportFiles lib.files res.2 now fuel 0 pfiles with
              | none => none
              | some newFiles =>
                  some { folders := lib.folders ++ res.1
                         files := lib.files ++ newFiles }
          | some _, none => some lib
          | none, _ => some lib

/-! ### Verified claims -/

/-- C9: when at least one of the entered title or text is non-blank
after trimming, `addCard` appends exactly one new card — with the
trimmed title (`'Untitled'` if the title is blank) and the trimmed
text — as the last element of the list, leaving every existing card's
contents and relative order unchanged; when both are blank after
trimming, the card list is unchanged. -/
theorem addCard_append_or_noop (st : PageState) (now : Int) :
    (¬ (jsTrim st.title = "" ∧ jsTrim st.text = "") →
      (addCardRun st now).cards =
        st.cards ++ [{ id := "c" ++ toString now
                       title := if jsTrim st.title = "" then "Untitled" else jsTrim st.title
                       text := jsTrim st.text
                       createdAt := now }]) ∧
    ((jsTrim st.title = "" ∧ jsTrim st.text = "") →
      (addCardRun st now).cards = st.cards) := by
  constructor
  · intro h
    simp only [addCardRun, if_neg h]
  · intro h
    simp only [addCardRun, if_pos h]

theorem addCard_append_or_noop_witness :
    (addCardRun { cards := [], title := "Hi", text := " x ", editingId := none,
                  editTitle := "", editText := "", layouts := [],
                  currentLayoutTitle := "" } 5).cards
      = [] ++ [{ id := "c" ++ toString (5 : Int)
                 title := if jsTrim "Hi" = "" then "Untitled" else jsTrim "Hi"
                 text := jsTrim " x "
                 createdAt := 5 }] :=
  (addCard_append_or_noop
    { cards := [], title := "Hi", text := " x ", editingId := none,
      editTitle := "", editText := "", layouts := [], currentLayoutTitle := "" } 5).1
    (by decide)

/-- C8: a layout saved by `saveLayout` embeds a snapshot of the current
cards, and subsequently adding a card (`addCard`), saving an edit
(`saveEdit`) or deleting a card (`removeCard`) leaves the stored
layouts — in particular the cards embedded in the saved entry —
unchanged. -/
theorem saveLayout_snapshot_frame (st : PageState) (pr : Option String)
    (now now2 : Int) (cid : String) (cf : Bool) (hcards : st.cards ≠ []) :
    ((saveLayoutRun st pr now).layouts
        = st.layouts ++ [{ id := "L" ++ toString now
                           title := nextUniqueTitle st.layouts (pr.getD "")
                           savedAt := now
                           cards := st.cards }]) ∧
    (addCardRun (saveLayoutRun st pr now) now2).layouts = (saveLayoutRun st pr now).layouts ∧
    (saveEditRun (saveLayoutRun st pr now)).layouts = (saveLayoutRun st pr now).layouts ∧
    (removeCardRun (saveLayoutRun st pr now) cid cf).layouts = (saveLayoutRun st pr now).layouts := by
  refine ⟨?_, ?_, ?_, ?_⟩
  · simp only [saveLayoutRun, if_neg hcards]
  · by_cases h : jsTrim (saveLayoutRun st pr now).title = "" ∧
        jsTrim (saveLayoutRun st pr now).text = ""
    · simp [addCardRun, h]
    · simp [addCardRun, h]
  · unfold saveEditRun
    split <;> rfl
  · unfold removeCardRun
    split <;> rfl

theorem saveLayout_snapshot_frame_witness :
    (saveLayoutRun { cards := [⟨"c1", "T", "x", 0⟩], title := "", text := "",
                     editingId := none, editTitle := "", editText := "",
                     layouts := [], currentLayoutTitle := "" } (some "My") 4).layouts
      = [] ++ [{ id := "L" ++ toString (4 : Int)
                 title := nextUniqueTitle [] ((some "My").getD "")
                 savedAt := 4
                 cards := [⟨"c1", "T", "x", 0⟩] }] :=
  (saveLayout_snapshot_frame
    { cards := [⟨"c1", "T", "x", 0⟩], title := "", text := "", editingId := none,
      editTitle := "", editText := "", layouts := [], currentLayoutTitle := "" }
    (some "My") 4 7 "c1" true (by decide)).1

/-- If a folder list has pairwise-distinct ids and contains a folder
with id `fid`, filtering that id out removes exactly one entry. -/
theorem filter_ne_id_length {l : List DocFolder} {fid : String}
    (hnd : (l.map (fun f => f.id)).Nodup) (hmem : ∃ g ∈ l, g.id = fid) :
    (l.filter (fun f => f.id ≠ fid)).length + 1 = l.length := by
  induction l with
  | nil => simp at hmem
  | cons g rest ih =>
      simp only [List.map_cons, List.nodup_cons] at hnd
      by_cases hg : g.id = fid
      · have hrest : rest.filter (fun f => f.id ≠ fid) = rest := by
          apply List.filter_eq_self.2
          intro a ha
          simp only [decide_eq_true_eq]
          intro haid
          apply hnd.1
          have hmm : a.id ∈ List.map (fun f => f.id) rest :=
            List.mem_map_of_mem (fun f => f.id) ha
          rwa [haid, ← hg] at hmm
        simp [List.filter_cons, hg, hrest]
        intro a ha haid
        apply hnd.1
        have hmm : a.id ∈ List.map (fun f => f.id) rest :=
          List.mem_map_of_mem (fun f => f.id) ha
        rwa [haid, ← hg] at hmm
      · obtain ⟨x, hx, hxid⟩ := hmem
        rcases List.mem_cons.1 hx with hxg | hxr
        · exact absurd (hxg ▸ hxid) hg
        · have := ih hnd.2 ⟨x, hxr, hxid⟩
          simp only [List.filter_cons, decide_eq_true_eq]
          rw [if_pos hg]
          simp only [List.length_cons]
          omega

/-- C5: `deleteFolder` removes exactly the targeted folder and deletes
no file: every file that pointed at the deleted folder ends up Unfiled
(`folderId = none`) with `updatedAt` stamped, and every other folder
and file — and the id, name and content of every file — is unchanged. -/
theorem deleteFolder_graceful (lib : DocumentLibrary) (folder : DocFolder) (now : Int)
    (hmem : folder ∈ lib.folders)
    (hnd : (lib.folders.map (fun f => f.id)).Nodup) :
    (folder ∉ (deleteFolderRun lib folder.id true now).folders) ∧
    ((deleteFolderRun lib folder.id true now).folders.length + 1 = lib.folders.length) ∧
    (List.Sublist (deleteFolderRun lib folder.id true now).folders lib.folders) ∧
    (∀ g ∈ lib.folders, g.id ≠ folder.id →
        g ∈ (deleteFolderRun lib folder.id true now).folders) ∧
    (List.Forall₂ (fun f f' =>
        f'.id = f.id ∧ f'.name = f.name ∧ f'.content = f.content ∧
        f'.createdAt = f.createdAt ∧
        (f.folderId = some folder.id → f'.folderId = none ∧ f'.updatedAt = now) ∧
        (f.folderId ≠ some folder.id → f' = f))
      lib.files (deleteFolderRun lib folder.id true now).files) := by
  have hfind : ∃ x, lib.folders.find? (fun f => f.id = folder.id) = some x := by
    rw [← Option.isSome_iff_exists, List.find?_isSome]
    exact ⟨folder, hmem, by simp⟩
  obtain ⟨x, hx⟩ := hfind
  have hrun : deleteFolderRun lib folder.id true now =
      { folders := lib.folders.filter (fun f => f.id ≠ folder.id)
        files := lib.files.map (fun file =>
          if file.folderId = some folder.id then
            { file with folderId := none, updatedAt := now }
          else file) } := by
    simp only [deleteFolderRun, hx, if_pos]
  rw [hrun]
  refine ⟨?_, ?_, ?_, ?_, ?_⟩
  · intro hcontra
    have := (List.mem_filter.1 hcontra).2
    simp at this
  · exact filter_ne_id_length hnd ⟨folder, hmem, rfl⟩
  · exact List.filter_sublist _
  · intro g hg hgid
    exact List.mem_filter.2 ⟨hg, by simpa using hgid⟩
  · rw [List.forall₂_map_right_iff, List.forall₂_same]
    intro f _
    by_cases hf : f.folderId = some folder.id
    · simp [hf]
    · simp [hf]

theorem deleteFolder_graceful_witness :
    let lib : DocumentLibrary :=
      { folders := [⟨"F1", "Work", 0⟩, ⟨"F2", "Home", 0⟩]
        files := [⟨"d1", "a.txt", "A", 0, 0, some "F1"⟩, ⟨"d2", "b.txt", "B", 0, 0, none⟩] }
    (⟨"F1", "Work", 0⟩ : DocFolder) ∉ (deleteFolderRun lib "F1" true 9).folders ∧
      (deleteFolderRun lib "F1" true 9).folders.length + 1 = lib.folders.length := by
  intro lib
  have h := deleteFolder_graceful lib ⟨"F1", "Work", 0⟩ 9 (by decide) (by decide)
  exact ⟨h.1, h.2.1⟩

/-- `!data || !Array.isArray(data.cards)` — the shape guard of
`importJSON`. -/
def hasCardsArray (d : Json) : Bool :=
  truthy d && (jsArr (jsGet d "cards")).isSome

/-- The shape guard of `importLibraryLayouts`: a top-level array, or an
object whose `layouts` property is an array. -/
def hasLayoutsArray (d : Json) : Bool :=
  (layoutsIncoming d).isSome

/-- The shape guard of `importDocLibrary`: an accepted payload whose
`folders` and `files` properties are arrays. -/
def hasDocLibShape (d : Json) : Bool :=
  match importDocPayload d with
  | none => false
  | some payload =>
      (jsArr (jsGet payload "folders")).isSome && (jsArr (jsGet payload "files")).isSome

/-- C6: import failures are local and atomic — when the chosen file
fails to parse as JSON (`input = none`, the `.catch`/`catch` branches)
or parses to a value without the expected shape, `importJSON`,
`importLibraryLayouts` and `importDocLibrary` each leave their state
completely unchanged. -/
theorem import_failures_atomic (cards : List Card) (layouts : List LayoutEntry)
    (lib : DocumentLibrary) (d : Json) (now : Int) (fuel : Nat) :
    (importJSONRun cards none now = cards) ∧
    (importLibraryLayoutsRun layouts none now = layouts) ∧
    (importDocLibraryRun lib none now fuel = some lib) ∧
    (hasCardsArray d = false → importJSONRun cards (some d) now = cards) ∧
    (hasLayoutsArray d = false → importLibraryLayoutsRun layouts (some d) now = layouts) ∧
    (hasDocLibShape d = false → importDocLibraryRun lib (some d) now fuel = some lib) := by
  refine ⟨rfl, rfl, rfl, ?_, ?_, ?_⟩
  · intro h
    simp only [hasCardsArray, Bool.and_eq_false_iff] at h
    simp only [importJSONRun]
    rcases h with h | h
    · simp [h]
    · cases hj : jsArr (jsGet d "cards") with
      | none => split <;> simp [hj]
      | some xs => rw [hj] at h; simp at h
  · intro h
    simp only [hasLayoutsArray] at h
    simp only [importLibraryLayoutsRun]
    cases hj : layoutsIncoming d with
    | none => rfl
    | some xs => rw [hj] at h; simp at h
  · intro h
    simp only [hasDocLibShape] at h
    simp only [importDocLibraryRun]
    cases hp : importDocPayload d with
    | none => rfl
    | some payload =>
        simp only [hp] at h
        cases hf : jsArr (jsGet payload "folders") with
        | none => simp [hf]
        | some pfolders =>
            cases hfi : jsArr (jsGet payload "files") with
            | none => simp [hf, hfi]
            | some pfiles =>
                rw [hf, hfi] at h
                simp at h

theorem import_failures_atomic_witness :
    hasCardsArray (.str "oops") = false ∧
      importJSONRun [⟨"c1", "T", "x", 0⟩] (some (.str "oops")) 5 = [⟨"c1", "T", "x", 0⟩] :=
  ⟨by decide,
   (import_failures_atomic [⟨"c1", "T", "x", 0⟩] [] ⟨[], []⟩ (.str "oops") 5 2).2.2.2.1
     (by decide)⟩


/-- C2: the `uniqueFileName`/`uniqueNameForImport` while loop rebuilds
the *same* candidate `stem + '-2' + ext` on every iteration, so on a
folder that already contains both `a.txt` and `a-2.txt` (reachable by
uploading `a.txt` twice) a third `a.txt` makes the loop run forever —
no finite number of `-2` suffixing steps returns a free name, contrary
to the claim that the helpers always terminate. -/
theorem uniqueFileName_loops_forever :
    (∀ fuel, uniqueFileName
        [⟨"d1", "a.txt", "", 0, 0, none⟩, ⟨"d2", "a-2.txt", "", 0, 0, none⟩]
        "a.txt" none fuel = none) ∧
    (∀ fuel, uniqueNameForImport
        [⟨"d1", "a.txt", "", 0, 0, none⟩, ⟨"d2", "a-2.txt", "", 0, 0, none⟩]
        "a.txt" none fuel = none) := by
  constructor
  · intro fuel
    have h : uniqueFileName
        [⟨"d1", "a.txt", "", 0, 0, none⟩, ⟨"d2", "a-2.txt", "", 0, 0, none⟩]
        "a.txt" none fuel
        = fileNameLoop ["a.txt", "a-2.txt"] "a-2.txt" fuel "a.txt" := rfl
    rw [h]
    exact fileNameLoop_stuck _ _ _ (by decide) (by decide) fuel
  · intro fuel
    have h : uniqueNameForImport
        [⟨"d1", "a.txt", "", 0, 0, none⟩, ⟨"d2", "a-2.txt", "", 0, 0, none⟩]
        "a.txt" none fuel
        = fileNameLoop ["a.txt", "a-2.txt"] "a-2.txt" fuel "a.txt" := rfl
    rw [h]
    exact fileNameLoop_stuck _ _ _ (by decide) (by decide) fuel

/-- Pairwise-distinct layout titles. -/
def distinctTitles (layouts : List LayoutEntry) : Prop :=
  List.Pairwise (fun a b => a.title ≠ b.title) layouts

/-- The normalized layouts of `importLibraryLayouts` carry titles that
avoid the accumulated taken set and each other. -/
theorem normLayouts_titles (now : Int) :
    ∀ (incoming : List Json) (li : Nat) (taken : List String),
      (∀ e ∈ normLayouts now li taken incoming, e.title ∉ taken) ∧
      List.Pairwise (fun a b => a.title ≠ b.title) (normLayouts now li taken incoming) := by
  intro incoming
  induction incoming with
  | nil => intro li taken; exact ⟨by simp [normLayouts], by simp [normLayouts]⟩
  | cons l rest ih =>
      intro li taken
      have hhead : (normLayoutEntry now li taken l).title ∉ taken := by
        simp only [normLayoutEntry]
        exact addSuffixes_not_mem _ _
      have ihres := ih (li + 1) ((normLayoutEntry now li taken l).title :: taken)
      constructor
      · intro e he
        rcases List.mem_cons.1 he with he | he
        · exact he ▸ hhead
        · have := ihres.1 e he
          exact fun hc => this (List.mem_cons_of_mem _ hc)
      · rw [normLayouts]
        apply List.Pairwise.cons
        · intro e he
          have := ihres.1 e he
          intro hc
          exact this (hc ▸ List.mem_cons_self _ _)
        · exact ihres.2

/-- C3: pairwise-distinct layout titles hold for the empty library and
are preserved by every layouts operation — `saveLayout` (via
`nextUniqueTitle`), `importLibraryLayouts` (suffix-increment against
existing and just-imported titles) and `deleteLayout`. -/
theorem layout_titles_invariant :
    (distinctTitles []) ∧
    (∀ (st : PageState) (pr : Option String) (now : Int), distinctTitles st.layouts →
      distinctTitles (saveLayoutRun st pr now).layouts) ∧
    (∀ (layouts : List LayoutEntry) (input : Option Json) (now : Int),
      distinctTitles layouts → distinctTitles (importLibraryLayoutsRun layouts input now)) ∧
    (∀ (layouts : List LayoutEntry) (id : String) (c : Bool), distinctTitles layouts →
      distinctTitles (deleteLayoutRun layouts id c)) := by
  refine ⟨List.Pairwise.nil, ?_, ?_, ?_⟩
  · intro st pr now h
    by_cases hc : st.cards = []
    · simp only [saveLayoutRun, if_pos hc]
      exact h
    · simp only [saveLayoutRun, if_neg hc]
      rw [distinctTitles, List.pairwise_append]
      refine ⟨h, List.pairwise_singleton _ _, ?_⟩
      intro a ha b hb
      rcases List.mem_singleton.1 hb with rfl
      intro hab
      apply addSuffixes_not_mem (st.layouts.map (fun l => l.title)) (trimOr (pr.getD "") "Untitled")
      have hab2 : a.title = nextUniqueTitle st.layouts (pr.getD "") := hab
      show nextUniqueTitle st.layouts (pr.getD "") ∈ _
      rw [← hab2]
      exact List.mem_map_of_mem (fun l => l.title) ha
  · intro layouts input now h
    match input with
    | none => exact h
    | some data =>
        simp only [importLibraryLayoutsRun]
        cases hj : layoutsIncoming data with
        | none => exact h
        | some incoming =>
            by_cases hemp : normLayouts now 0 (layouts.map (fun l => l.title)) incoming = []
            · simp only [hemp, if_pos rfl]
              exact h
            · simp only [if_neg hemp]
              rw [distinctTitles, List.pairwise_append]
              refine ⟨h, (normLayouts_titles now incoming 0 _).2, ?_⟩
              intro a ha b hb hab
              apply (normLayouts_titles now incoming 0 (layouts.map (fun l => l.title))).1 b hb
              rw [← hab]
              exact List.mem_map_of_mem (fun l => l.title) ha
  · intro layouts id c h
    simp only [deleteLayoutRun]
    split
    · exact h
    · split
      · exact List.Pairwise.sublist (List.filter_sublist _) h
      · exact h

theorem layout_titles_invariant_witness :
    distinctTitles (saveLayoutRun
      { cards := [⟨"c1", "T", "x", 0⟩], title := "", text := "", editingId := none,
        editTitle := "", editText := "", layouts := [⟨"L1", "A", 0, []⟩],
        currentLayoutTitle := "" } (some "A") 3).layouts :=
  layout_titles_invariant.2.1
    { cards := [⟨"c1", "T", "x", 0⟩], title := "", text := "", editingId := none,
      editTitle := "", editText := "", layouts := [⟨"L1", "A", 0, []⟩],
      currentLayoutTitle := "" } (some "A") 3 (by simp only [distinctTitles]; decide)

/-- C4 counterexample: the current card list is replaced by the
normalized records sorted by `createdAt`, so a card list that is not in
nondecreasing `createdAt` order comes back from the export/import
round-trip in a different order. -/
theorem export_import_reorders :
    importJSONRun [] (some (exportJSONData [⟨"a", "t", "x", 1⟩, ⟨"b", "u", "y", 0⟩])) 99
      ≠ [⟨"a", "t", "x", 1⟩, ⟨"b", "u", "y", 0⟩] := by decide

/-- C4 (amended): for every list of cards whose `createdAt` values are
nondecreasing in list order — the order the page itself maintains when
cards are appended with current timestamps — exporting with
`exportJSON` and importing the produced file with `importJSON` restores
exactly the same cards (same id, title, text and createdAt) in the same
order. -/
theorem export_import_roundtrip_sorted (cur cards : List Card) (now : Int)
    (hsorted : List.Pairwise cardLE cards) :
    importJSONRun cur (some (exportJSONData cards)) now = cards := by
  have hnorm : ∀ (i : Nat) (cs : List Card),
      normCardsImport now i (cs.map cardToJson) = some cs := by
    intro i cs
    induction cs generalizing i with
    | nil => rfl
    | cons c rest ih =>
        simp only [List.map_cons, normCardsImport, ih]
        rfl
  have hstep : importJSONRun cur (some (exportJSONData cards)) now
      = (match normCardsImport now 0 (cards.map cardToJson) with
         | none => cur
         | some norm => List.insertionSort cardLE norm) := rfl
  rw [hstep, hnorm 0 cards]
  exact List.Sorted.insertionSort_eq hsorted

theorem export_import_roundtrip_sorted_witness :
    importJSONRun [] (some (exportJSONData [⟨"a", "t", "x", 0⟩, ⟨"b", "u", "y", 1⟩])) 99
      = [⟨"a", "t", "x", 0⟩, ⟨"b", "u", "y", 1⟩] :=
  export_import_roundtrip_sorted [] [⟨"a", "t", "x", 0⟩, ⟨"b", "u", "y", 1⟩] 99 (by decide)


/-- Pairwise-distinct file names within each folder (Unfiled = `none`
included): no two files with the same `folderId` share a name. -/
def distinctNames (files : List DocFile) : Prop :=
  List.Pairwise (fun f g => f.folderId = g.folderId → f.name ≠ g.name) files

/-- C1 counterexample: `moveFile` rewrites only `folderId`/`updatedAt`
and never re-uniquifies the name against the destination folder, so
moving the second `a.txt` into Unfiled — where another `a.txt` already
lives — leaves two files of the same name in the same folder, breaking
the claimed invariant. -/
theorem moveFile_creates_duplicate :
    distinctNames
      (DocumentLibrary.files
        { folders := [⟨"F1", "Work", 0⟩]
          files := [⟨"d1", "a.txt", "", 0, 0, none⟩, ⟨"d2", "a.txt", "", 0, 0, some "F1"⟩] }) ∧
    ¬ distinctNames
      (DocumentLibrary.files
        (moveFileRun
          { folders := [⟨"F1", "Work", 0⟩]
            files := [⟨"d1", "a.txt", "", 0, 0, none⟩, ⟨"d2", "a.txt", "", 0, 0, some "F1"⟩] }
          "d2" .unfiled 5)) := by
  constructor
  · simp only [distinctNames]
    decide
  · simp only [distinctNames]
    decide

/-- A name outside a folder's taken-name set differs from the name of
every file of that folder. -/
theorem not_mem_namesInFolder {files : List DocFile} {fid : Option String} {r : String}
    (h : r ∉ namesInFolder files fid) :
    ∀ f ∈ files, f.folderId = fid → f.name ≠ r := by
  intro f hf hfid hname
  apply h
  rw [← hname]
  simp only [namesInFolder]
  have hmf : f ∈ files.filter (fun g => g.folderId = fid) :=
    List.mem_filter.2 ⟨hf, decide_eq_true hfid⟩
  exact List.mem_map_of_mem (fun f => f.name) hmf

/-- The rename update function of `renameFile`. -/
def renameUpd (fileId unq : String) (now : Int) (f : DocFile) : DocFile :=
  if f.id = fileId then { f with name := unq, updatedAt := now } else f

/-- Renaming the (id-unique) file `fileId` to a name free in its folder
preserves per-folder name distinctness. -/
theorem pairwise_renameUpd :
    ∀ (files : List DocFile) (fileId unq : String) (now : Int) (fid : Option String),
      (files.map (fun f => f.id)).Nodup →
      distinctNames files →
      (∀ f ∈ files, f.id = fileId → f.folderId = fid) →
      (∀ f ∈ files, f.folderId = fid → f.name ≠ unq) →
      distinctNames (files.map (renameUpd fileId unq now)) := by
  intro files
  induction files with
  | nil => intro _ _ _ _ _ _ _ _; exact List.Pairwise.nil
  | cons a rest ih =>
      intro fileId unq now fid hnd hpw hfold hunq
      simp only [List.map_cons, List.nodup_cons] at hnd
      rw [distinctNames, List.pairwise_cons] at hpw
      rw [List.map_cons, distinctNames, List.pairwise_cons]
      constructor
      · intro b' hb'
        obtain ⟨b, hb, rfl⟩ := List.mem_map.1 hb'
        by_cases haid : a.id = fileId
        · have hbid : b.id ≠ fileId := by
            intro hbid
            apply hnd.1
            rw [haid, ← hbid]
            exact List.mem_map_of_mem (fun f => f.id) hb
          simp only [renameUpd, if_pos haid, if_neg hbid]
          intro hfolds
          have hafold : a.folderId = fid := hfold a (List.mem_cons_self a rest) haid
          have : b.name ≠ unq := by
            apply hunq b (List.mem_cons_of_mem a hb)
            rw [← hfolds, ← hafold]
          exact fun hc => this hc.symm
        · by_cases hbid : b.id = fileId
          · simp only [renameUpd, if_neg haid, if_pos hbid]
            intro hfolds
            have hbfold : b.folderId = fid := hfold b (List.mem_cons_of_mem a hb) hbid
            exact hunq a (List.mem_cons_self a rest) (hfolds.trans hbfold)
          · simp only [renameUpd, if_neg haid, if_neg hbid]
            exact hpw.1 b hb
      · exact ih fileId unq now fid hnd.2 hpw.2
          (fun f hf => hfold f (List.mem_cons_of_mem a hf))
          (fun f hf => hunq f (List.mem_cons_of_mem a hf))

/-- C1 (amended): renaming a file (`renameFile`) and uploading a single
`.txt` file (`uploadTxtFiles`) preserve the invariant that file names
are pairwise distinct within each folder (given pairwise-distinct file
ids, which `renameFile` needs to touch only the targeted file); the
remaining document-library operations need not preserve it — `moveFile`
in particular can break it. -/
theorem docnames_rename_upload_preserve :
    (∀ (lib : DocumentLibrary) (fileId : String) (pr : Option String) (now : Int)
        (fuel : Nat) (lib' : DocumentLibrary),
      (lib.files.map (fun f => f.id)).Nodup →
      distinctNames lib.files →
      renameFileRun lib fileId pr now fuel = some lib' →
      distinctNames lib'.files) ∧
    (∀ (lib : DocumentLibrary) (nm content : String) (target : FolderTarget) (now : Int)
        (fuel : Nat) (lib' : DocumentLibrary),
      distinctNames lib.files →
      uploadTxtFilesRun lib [(nm, content)] target now fuel = some lib' →
      distinctNames lib'.files) := by
  constructor
  · intro lib fileId pr now fuel lib' hnd hdn hrun
    rw [renameFileRun] at hrun
    split at hrun
    · cases hrun
      exact hdn
    · rename_i file hfind
      split at hrun
      · cases hrun
        exact hdn
      · rename_i hguard
        split at hrun
        · cases hrun
        · rename_i unq huniq
          cases hrun
          have hfree : unq ∉ namesInFolder lib.files file.folderId :=
            fileNameLoop_not_mem _ _ fuel _ _ huniq
          have hfid : file.id = fileId := by
            have := List.find?_some hfind
            simpa using this
          have hmem : file ∈ lib.files := List.mem_of_find?_eq_some hfind
          apply pairwise_renameUpd lib.files fileId unq now file.folderId hnd hdn
          · intro f hf hfi
            have : f = file := by
              apply List.inj_on_of_nodup_map hnd hf hmem
              simp [hfi, hfid]
            rw [this]
          · exact not_mem_namesInFolder hfree
  · intro lib nm content target now fuel lib' hdn hrun
    rw [uploadTxtFilesRun] at hrun
    by_cases hext : strEndsWith (lowerStr nm) ".txt" = true
    · have hfilter : [(nm, content)].filter (fun f => strEndsWith (lowerStr f.1) ".txt")
          = [(nm, content)] := by
        simp [List.filter_cons, hext]
      rw [hfilter, if_neg (by simp)] at hrun
      cases huniq : uniqueFileName lib.files (safeNameOf nm now 0) target.toId fuel with
      | none =>
          rw [show uploadDocs lib.files target.toId now fuel 0 [(nm, content)] = none by
            rw [uploadDocs, huniq]] at hrun
          simp at hrun
      | some unq =>
          have hdocs : uploadDocs lib.files target.toId now fuel 0 [(nm, content)]
              = some [{ id := "D" ++ toString now ++ "_" ++ toString 0
                        name := unq
                        content := content
                        createdAt := now
                        updatedAt := now
                        folderId := target.toId }] := by
            rw [uploadDocs, huniq]
            rfl
          rw [hdocs] at hrun
          simp only [Option.some.injEq] at hrun
          rw [← hrun]
          have hfree : unq ∉ namesInFolder lib.files target.toId :=
            fileNameLoop_not_mem _ _ fuel _ _ huniq
          rw [distinctNames, List.pairwise_append]
          refine ⟨hdn, List.pairwise_singleton _ _, ?_⟩
          intro a ha b hb
          rcases List.mem_singleton.1 hb with rfl
          intro hfolds
          have := not_mem_namesInFolder hfree a ha hfolds
          exact fun hc => this hc
    · have hfilter : [(nm, content)].filter (fun f => strEndsWith (lowerStr f.1) ".txt")
          = [] := by
        simp [List.filter_cons, hext]
      rw [hfilter, if_pos rfl] at hrun
      cases hrun
      exact hdn

theorem docnames_rename_upload_preserve_witness :
    distinctNames
      (DocumentLibrary.files ⟨[], [⟨"d1", "b", "", 0, 5, none⟩]⟩) :=
  docnames_rename_upload_preserve.1
    ⟨[], [⟨"d1", "a.txt", "", 0, 0, none⟩]⟩ "d1" (some "b") 5 2
    ⟨[], [⟨"d1", "b", "", 0, 5, none⟩]⟩
    (by decide) (by simp only [distinctNames]; decide) (by decide)


/-- `String(v ?? d)` takes the default exactly on `null`/`undefined`. -/
theorem jsCoalesceString_some {v : Json} (hne : v ≠ .null) (d : String) :
    jsCoalesceString (some v) d = jsString v := by
  cases v with
  | null => exact absurd rfl hne
  | bool b => rfl
  | num n => rfl
  | str s => rfl
  | arr xs => rfl
  | obj fields => rfl

/-- A non-null record never throws: bare property access succeeds and
the record is normalized with the fallback defaults. -/
theorem normCardImport_nonnull {now : Int} {i : Nat} {c : Json} (hne : c ≠ .null) :
    normCardImport now i c = some
      { id := jsCoalesceString (jsGet c "id") ("c" ++ toString now ++ toString i)
        title := jsCoalesceString (jsGet c "title") "Untitled"
        text := jsCoalesceString (jsGet c "text") ""
        createdAt :=
          match toNumOpt (jsGet c "createdAt") with
          | some n => n
          | none => now - i } := by
  cases c with
  | null => exact absurd rfl hne
  | bool b => rfl
  | num n => rfl
  | str s => rfl
  | arr xs => rfl
  | obj fields => rfl

/-- A `null` record anywhere in the cards array aborts the whole map. -/
theorem normCardsImport_has_null (now : Int) :
    ∀ (xs : List Json) (i : Nat), Json.null ∈ xs → normCardsImport now i xs = none := by
  intro xs
  induction xs with
  | nil => intro i h; simp at h
  | cons c rest ih =>
      intro i h
      rcases List.mem_cons.1 h with rfl | h'
      · rfl
      · rw [normCardsImport]
        cases hc : normCardImport now i c with
        | none => rfl
        | some card => rw [ih (i + 1) h']

/-- Without a `null` record the map succeeds. -/
theorem normCardsImport_no_null (now : Int) :
    ∀ (xs : List Json) (i : Nat), Json.null ∉ xs →
      ∃ norm, normCardsImport now i xs = some norm := by
  intro xs
  induction xs with
  | nil => intro i _; exact ⟨[], rfl⟩
  | cons c rest ih =>
      intro i h
      have hc : c ≠ .null := fun hcn => h (hcn ▸ List.mem_cons_self c rest)
      obtain ⟨norm, hnorm⟩ := ih (i + 1) (fun hm => h (List.mem_cons_of_mem c hm))
      cases hcard : normCardImport now i c with
      | none =>
          rw [normCardImport_nonnull hc] at hcard
          exact absurd hcard (by simp)
      | some card =>
          exact ⟨card :: norm, by rw [normCardsImport, hcard, hnorm]⟩

/-- C7 counterexample: `importJSON` reads `c.id` with *bare* property
access (src/app/page.tsx:292), so the reachable input
`{"cards":[null]}` throws a TypeError that lands in `.catch` — the
cards are left exactly as they were, not replaced by a
normalized-with-defaults record as the claim states. -/
theorem importJSON_null_record_untouched :
    importJSONRun [⟨"keep", "K", "k", 5⟩] (some (.obj [("cards", .arr [.null])])) 9
        = [⟨"keep", "K", "k", 5⟩] ∧
    importJSONRun [⟨"keep", "K", "k", 5⟩] (some (.obj [("cards", .arr [.null])])) 9
        ≠ [⟨"c" ++ toString (9 : Int) ++ toString (0 : Nat), "Untitled", "", 9⟩] := by
  constructor
  · rfl
  · decide

/-- C7 (amended): on a well-shaped input whose cards array has no
`null` record, `importJSON` normalizes every imported record
field-by-field — id coerced to a string with a generated fallback,
title coerced to a string defaulting to `'Untitled'`, text coerced to a
string defaulting to `''`, createdAt kept when it coerces to a finite
number and otherwise replaced by the timestamp-based fallback
`now - i` — and replaces the current cards with the normalized list
sorted by `createdAt` in nondecreasing order; a `null` record in the
array makes the bare property access throw, the error is caught, and
the cards are left unchanged. -/
theorem importJSON_normalize_sort (cards : List Card) (d : Json) (xs : List Json)
    (now : Int) (htruthy : truthy d = true) (hcards : jsArr (jsGet d "cards") = some xs) :
    (Json.null ∈ xs → importJSONRun cards (some d) now = cards) ∧
    (Json.null ∉ xs →
      ∃ norm : List Card,
        normCardsImport now 0 xs = some norm ∧
        importJSONRun cards (some d) now = List.insertionSort cardLE norm ∧
        List.Sorted cardLE (importJSONRun cards (some d) now) ∧
        List.Perm (importJSONRun cards (some d) now) norm ∧
        (∀ (i : Nat) (c : Json), c ≠ .null →
          ∃ card, normCardImport now i c = some card ∧
            ((jsGet c "id" = none ∨ jsGet c "id" = some .null) →
                card.id = "c" ++ toString now ++ toString i) ∧
            (∀ v, jsGet c "id" = some v → v ≠ .null → card.id = jsString v) ∧
            ((jsGet c "title" = none ∨ jsGet c "title" = some .null) →
                card.title = "Untitled") ∧
            (∀ v, jsGet c "title" = some v → v ≠ .null → card.title = jsString v) ∧
            ((jsGet c "text" = none ∨ jsGet c "text" = some .null) → card.text = "") ∧
            (∀ v, jsGet c "text" = some v → v ≠ .null → card.text = jsString v) ∧
            (∀ n, toNumOpt (jsGet c "createdAt") = some n → card.createdAt = n) ∧
            (toNumOpt (jsGet c "createdAt") = none → card.createdAt = now - i))) := by
  constructor
  · intro hnull
    simp [importJSONRun, htruthy, hcards, normCardsImport_has_null now xs 0 hnull]
  · intro hnonull
    obtain ⟨norm, hnorm⟩ := normCardsImport_no_null now xs 0 hnonull
    have hrun : importJSONRun cards (some d) now = List.insertionSort cardLE norm := by
      simp [importJSONRun, htruthy, hcards, hnorm]
    refine ⟨norm, hnorm, hrun, ?_, ?_, ?_⟩
    · rw [hrun]
      exact List.sorted_insertionSort cardLE _
    · rw [hrun]
      exact List.perm_insertionSort cardLE _
    · intro i c hne
      refine ⟨_, normCardImport_nonnull hne, ?_, ?_, ?_, ?_, ?_, ?_, ?_, ?_⟩
      · rintro (h | h) <;> simp [h, jsCoalesceString]
      · intro v hv hvne
        simp [hv, jsCoalesceString_some hvne]
      · rintro (h | h) <;> simp [h, jsCoalesceString]
      · intro v hv hvne
        simp [hv, jsCoalesceString_some hvne]
      · rintro (h | h) <;> simp [h, jsCoalesceString]
      · intro v hv hvne
        simp [hv, jsCoalesceString_some hvne]
      · intro n hn
        simp [hn]
      · intro hn
        simp [hn]

theorem importJSON_normalize_sort_witness :
    List.Sorted cardLE (importJSONRun []
      (some (.obj [("cards", .arr [.obj [("title", .str "A")]])])) 9) ∧
    importJSONRun [⟨"keep", "K", "k", 5⟩]
      (some (.obj [("cards", .arr [.null, .obj [("title", .str "A")]])])) 9
      = [⟨"keep", "K", "k", 5⟩] := by
  constructor
  · obtain ⟨norm, hnorm, hrun, hsorted, hperm, hfields⟩ :=
      (importJSON_normalize_sort [] (.obj [("cards", .arr [.obj [("title", .str "A")]])])
        [.obj [("title", .str "A")]] 9 rfl rfl).2 (by simp)
    exact hsorted
  · exact (importJSON_normalize_sort [⟨"keep", "K", "k", 5⟩]
      (.obj [("cards", .arr [.null, .obj [("title", .str "A")]])])
      [.null, .obj [("title", .str "A")]] 9 rfl rfl).1 (by simp)


/-- The keys under which `importDocLibrary` registers incoming folders
in the fresh-id map: `String(f?.id ?? 'F_in_' + i)`. -/
def folderKeys : Nat → List Json → List String
  | _, [] => []
  | i, f :: rest =>
      jsCoalesceString (jsGet f "id") ("F_in_" ++ toString i) :: folderKeys (i + 1) rest

/-- Every imported folder's id is the generated `F{now}_{index}`. -/
theorem normImportFolders_get_id (now : Int) :
    ∀ (pfolders : List Json) (i : Nat) (taken : List String)
      (idMap : List (String × String)) (j : Nat)
      (hj : j < (normImportFolders now i taken idMap pfolders).1.length),
      ((normImportFolders now i taken idMap pfolders).1.get ⟨j, hj⟩).id
        = "F" ++ toString now ++ "_" ++ toString (i + j) := by
  intro pfolders
  induction pfolders with
  | nil =>
      intro i taken idMap j hj
      simp [normImportFolders] at hj
  | cons f rest ih =>
      intro i taken idMap j hj
      match j with
      | 0 => simp [normImportFolders]
      | j' + 1 =>
          have harith : i + 1 + j' = i + (j' + 1) := by omega
          have hj' : j' < (normImportFolders now (i + 1)
              ((addSuffixes taken (trimOr (jsCoalesceString (jsGet f "name") "Imported Folder")
                "Imported Folder")) :: taken)
              ((jsCoalesceString (jsGet f "id") ("F_in_" ++ toString i),
                "F" ++ toString now ++ "_" ++ toString i) :: idMap) rest).1.length := by
            simp only [normImportFolders, List.length_cons] at hj
            omega
          have := ih (i + 1) _ _ j' hj'
          rw [harith] at this
          exact this

/-- Every imported folder's id has the generated `F{now}_{j}` shape. -/
theorem normImportFolders_mem_id (now : Int) (pfolders : List Json) (i : Nat)
    (taken : List String) (idMap : List (String × String)) :
    ∀ g ∈ (normImportFolders now i taken idMap pfolders).1,
      ∃ j : Nat, g.id = "F" ++ toString now ++ "_" ++ toString j := by
  intro g hg
  obtain ⟨⟨j, hj⟩, hget⟩ := List.mem_iff_get.1 hg
  exact ⟨i + j, by rw [← hget]; exact normImportFolders_get_id now pfolders i taken idMap j hj⟩

/-- Every value in the final fresh-id map is either inherited from the
initial map or the id of an imported folder. -/
theorem normImportFolders_map_mem (now : Int) :
    ∀ (pfolders : List Json) (i : Nat) (taken : List String)
      (idMap : List (String × String)) (kv : String × String),
      kv ∈ (normImportFolders now i taken idMap pfolders).2 →
      kv ∈ idMap ∨ kv.2 ∈ (normImportFolders now i taken idMap pfolders).1.map (fun g => g.id) := by
  intro pfolders
  induction pfolders with
  | nil =>
      intro i taken idMap kv hkv
      exact Or.inl hkv
  | cons f rest ih =>
      intro i taken idMap kv hkv
      simp only [normImportFolders] at hkv ⊢
      rcases ih (i + 1) _ _ kv hkv with hin | hid
      · rcases List.mem_cons.1 hin with heq | hin'
        · right
          rw [heq]
          exact List.mem_cons_self _ _
        · exact Or.inl hin'
      · right
        exact List.mem_cons_of_mem _ hid

/-- A key that matches no incoming folder resolves in the final map
exactly as in the initial map — in particular to nothing when the map
started out empty. -/
theorem normImportFolders_find_unmatched (now : Int) :
    ∀ (pfolders : List Json) (i : Nat) (taken : List String)
      (idMap : List (String × String)) (k : String),
      k ∉ folderKeys i pfolders →
      (normImportFolders now i taken idMap pfolders).2.find? (fun kv => kv.1 = k)
        = idMap.find? (fun kv => kv.1 = k) := by
  intro pfolders
  induction pfolders with
  | nil => intro i taken idMap k _; rfl
  | cons f rest ih =>
      intro i taken idMap k hk
      rw [folderKeys] at hk
      have hne : jsCoalesceString (jsGet f "id") ("F_in_" ++ toString i) ≠ k :=
        fun hc => hk (hc ▸ List.mem_cons_self _ _)
      have htail : k ∉ folderKeys (i + 1) rest :=
        fun hc => hk (List.mem_cons_of_mem _ hc)
      simp only [normImportFolders]
      rw [ih (i + 1) _ _ k htail]
      exact List.find?_cons_of_neg _ (by simp [hne])

/-- A missing or `null` incoming `folderId` maps to Unfiled. -/
theorem importFileFolder_null {idMap : List (String × String)} {fi : Json}
    (h : jsGet fi "folderId" = none ∨ jsGet fi "folderId" = some .null) :
    importFileFolder idMap fi = none := by
  rcases h with h | h <;> simp [importFileFolder, h]

/-- An incoming `folderId` that misses the fresh-id map maps to
Unfiled, not to any pre-existing folder. -/
theorem importFileFolder_unmatched {idMap : List (String × String)} {fi : Json} {v : Json}
    (hv : jsGet fi "folderId" = some v) (hne : v ≠ .null)
    (hfind : idMap.find? (fun kv => kv.1 = jsString v) = none) :
    importFileFolder idMap fi = none := by
  cases v with
  | null => exact absurd rfl hne
  | bool b => simp [importFileFolder, hv, hfind]
  | num n => simp [importFileFolder, hv, hfind]
  | str s => simp [importFileFolder, hv, hfind]
  | arr xs => simp [importFileFolder, hv, hfind]
  | obj fields => simp [importFileFolder, hv, hfind]

/-- The re-keyed folder of an imported file is Unfiled or a value of
the fresh-id map. -/
theorem importFileFolder_none_or_mem (idMap : List (String × String)) (fi : Json) :
    importFileFolder idMap fi = none ∨
      ∃ kv ∈ idMap, importFileFolder idMap fi = some kv.2 := by
  rw [importFileFolder]
  cases hv : jsGet fi "folderId" with
  | none => exact Or.inl rfl
  | some v =>
      cases v with
      | null => exact Or.inl rfl
      | bool b =>
          cases hfind : idMap.find? (fun kv => kv.1 = jsString (.bool b)) with
          | none => exact Or.inl (by simp [hfind])
          | some kv => exact Or.inr ⟨kv, List.mem_of_find?_eq_some hfind, by simp [hfind]⟩
      | num n =>
          cases hfind : idMap.find? (fun kv => kv.1 = jsString (.num n)) with
          | none => exact Or.inl (by simp [hfind])
          | some kv => exact Or.inr ⟨kv, List.mem_of_find?_eq_some hfind, by simp [hfind]⟩
      | str s =>
          cases hfind : idMap.find? (fun kv => kv.1 = jsString (.str s)) with
          | none => exact Or.inl (by simp [hfind])
          | some kv => exact Or.inr ⟨kv, List.mem_of_find?_eq_some hfind, by simp [hfind]⟩
      | arr xs =>
          cases hfind : idMap.find? (fun kv => kv.1 = jsString (.arr xs)) with
          | none => exact Or.inl (by simp [hfind])
          | some kv => exact Or.inr ⟨kv, List.mem_of_find?_eq_some hfind, by simp [hfind]⟩
      | obj fields =>
          cases hfind : idMap.find? (fun kv => kv.1 = jsString (.obj fields)) with
          | none => exact Or.inl (by simp [hfind])
          | some kv => exact Or.inr ⟨kv, List.mem_of_find?_eq_some hfind, by simp [hfind]⟩

/-- The files produced by the import loop: each one's `folderId` is the
re-keyed folder of its incoming record. -/
theorem normImportFiles_spec (preFiles : List DocFile) (idMap : List (String × String))
    (now : Int) (fuel : Nat) :
    ∀ (pfiles : List Json) (i : Nat) (newFiles : List DocFile),
      normImportFiles preFiles idMap now fuel i pfiles = some newFiles →
      (∀ f ∈ newFiles, f.folderId = none ∨ ∃ kv ∈ idMap, f.folderId = some kv.2) ∧
      List.Forall₂ (fun (fi : Json) (f : DocFile) => f.folderId = importFileFolder idMap fi)
        pfiles newFiles := by
  intro pfiles
  induction pfiles with
  | nil =>
      intro i newFiles h
      rw [normImportFiles] at h
      cases h
      exact ⟨by simp, List.Forall₂.nil⟩
  | cons fi rest ih =>
      intro i newFiles h
      rw [normImportFiles] at h
      split at h
      · exact absurd h (by simp)
      · split at h
        · exact absurd h (by simp)
        · rename_i unq huniq docs hdocs
          simp only [Option.some.injEq] at h
          rw [← h]
          have ihres := ih (i + 1) docs hdocs
          constructor
          · intro f hf
            rcases List.mem_cons.1 hf with rfl | hf'
            · exact importFileFolder_none_or_mem idMap fi
            · exact ihres.1 f hf'
          · exact List.Forall₂.cons rfl ihres.2

/-- C10: `importDocLibrary` re-keys imported entities and never
introduces a dangling folder reference — every imported folder gets the
freshly generated id `F{now}_{index}` (distinct from every pre-existing
folder id whenever no existing id has that generated shape), and every
incoming file's `folderId` is either `null` or the fresh id of a folder
of the same call, while an incoming `folderId` matching no folder of
the imported payload is mapped to `null` rather than kept or attached
to a pre-existing folder, and all pre-existing folders and files are
kept untouched in place. -/
theorem importDocLibrary_rekeys (lib : DocumentLibrary) (d payload : Json)
    (pfolders pfiles : List Json) (now : Int) (fuel : Nat) (lib' : DocumentLibrary)
    (hp : importDocPayload d = some payload)
    (hf : jsArr (jsGet payload "folders") = some pfolders)
    (hfi : jsArr (jsGet payload "files") = some pfiles)
    (hrun : importDocLibraryRun lib (some d) now fuel = some lib')
    (hfresh : ∀ g ∈ lib.folders, ∀ j : Nat, g.id ≠ "F" ++ toString now ++ "_" ++ toString j) :
    ∃ newFolders newFiles,
      lib'.folders = lib.folders ++ newFolders ∧
      lib'.files = lib.files ++ newFiles ∧
      (∀ j (hj : j < newFolders.length),
        (newFolders.get ⟨j, hj⟩).id = "F" ++ toString now ++ "_" ++ toString j) ∧
      (∀ g' ∈ newFolders, ∀ g ∈ lib.folders, g'.id ≠ g.id) ∧
      (∀ f ∈ newFiles, f.folderId = none ∨ ∃ g ∈ newFolders, f.folderId = some g.id) ∧
      List.Forall₂ (fun (fi : Json) (f : DocFile) =>
        ((jsGet fi "folderId" = none ∨ jsGet fi "folderId" = some .null) → f.folderId = none) ∧
        (∀ v, jsGet fi "folderId" = some v → v ≠ .null →
          jsString v ∉ folderKeys 0 pfolders → f.folderId = none))
        pfiles newFiles := by
  rw [importDocLibraryRun] at hrun
  simp only [hp, hf, hfi] at hrun
  cases hnf : normImportFiles lib.files
      (normImportFolders now 0 (lib.folders.map (fun f => f.name)) [] pfolders).2
      now fuel 0 pfiles with
  | none => rw [hnf] at hrun; exact absurd hrun (by simp)
  | some nf =>
      rw [hnf] at hrun
      simp only [Option.some.injEq] at hrun
      refine ⟨(normImportFolders now 0 (lib.folders.map (fun f => f.name)) [] pfolders).1,
        nf, ?_, ?_, ?_, ?_, ?_, ?_⟩
      · rw [← hrun]
      · rw [← hrun]
      · intro j hj
        have := normImportFolders_get_id now pfolders 0
          (lib.folders.map (fun f => f.name)) [] j hj
        simpa using this
      · intro g' hg' g hg
        obtain ⟨j, hj⟩ := normImportFolders_mem_id now pfolders 0
          (lib.folders.map (fun f => f.name)) [] g' hg'
        rw [hj]
        exact (hfresh g hg j).symm
      · intro f hfmem
        have hspec := (normImportFiles_spec lib.files _ now fuel pfiles 0 nf hnf).1 f hfmem
        rcases hspec with hnone | ⟨kv, hkv, hval⟩
        · exact Or.inl hnone
        · rcases normImportFolders_map_mem now pfolders 0
              (lib.folders.map (fun f => f.name)) [] kv hkv with hemp | hid
          · simp at hemp
          · obtain ⟨g, hg, hgid⟩ := List.mem_map.1 hid
            exact Or.inr ⟨g, hg, by rw [hval, hgid]⟩
      · have hall := (normImportFiles_spec lib.files _ now fuel pfiles 0 nf hnf).2
        apply List.Forall₂.imp ?_ hall
        intro fi f hrel
        constructor
        · intro hnull
          rw [hrel]
          exact importFileFolder_null hnull
        · intro v hv hne hkeys
          rw [hrel]
          apply importFileFolder_unmatched hv hne
          rw [normImportFolders_find_unmatched now pfolders 0 _ [] _ hkeys]
          rfl

theorem importDocLibrary_rekeys_witness :
    ∃ newFolders newFiles,
      ([(⟨"F9", "Old", 0⟩ : DocFolder), ⟨"F7_0", "W", 7⟩])
          = [(⟨"F9", "Old", 0⟩ : DocFolder)] ++ newFolders ∧
      ([(⟨"D9", "old.txt", "", 0, 0, some "F9"⟩ : DocFile),
        ⟨"D7_0", "w1.txt", "", 7, 7, some "F7_0"⟩,
        ⟨"D7_1", "dang.txt", "", 6, 6, none⟩])
          = [(⟨"D9", "old.txt", "", 0, 0, some "F9"⟩ : DocFile)] ++ newFiles ∧
      (∀ j (hj : j < newFolders.length),
        (newFolders.get ⟨j, hj⟩).id = "F" ++ toString (7 : Int) ++ "_" ++ toString j) ∧
      (∀ g' ∈ newFolders, ∀ g ∈ [(⟨"F9", "Old", 0⟩ : DocFolder)], g'.id ≠ g.id) ∧
      (∀ f ∈ newFiles, f.folderId = none ∨ ∃ g ∈ newFolders, f.folderId = some g.id) ∧
      List.Forall₂ (fun (fi : Json) (f : DocFile) =>
        ((jsGet fi "folderId" = none ∨ jsGet fi "folderId" = some .null) → f.folderId = none) ∧
        (∀ v, jsGet fi "folderId" = some v → v ≠ .null →
          jsString v ∉ folderKeys 0 [Json.obj [("id", .str "f1"), ("name", .str "W")]] →
          f.folderId = none))
        [Json.obj [("name", .str "w1.txt"), ("folderId", .str "f1")],
         Json.obj [("name", .str "dang.txt"), ("folderId", .str "zzz")]] newFiles := by
  have h := importDocLibrary_rekeys
    ⟨[⟨"F9", "Old", 0⟩], [⟨"D9", "old.txt", "", 0, 0, some "F9"⟩]⟩
    (.obj [("folders", .arr [Json.obj [("id", .str "f1"), ("name", .str "W")]]),
           ("files", .arr [Json.obj [("name", .str "w1.txt"), ("folderId", .str "f1")],
                           Json.obj [("name", .str "dang.txt"), ("folderId", .str "zzz")]])])
    (.obj [("folders", .arr [Json.obj [("id", .str "f1"), ("name", .str "W")]]),
           ("files", .arr [Json.obj [("name", .str "w1.txt"), ("folderId", .str "f1")],
                           Json.obj [("name", .str "dang.txt"), ("folderId", .str "zzz")]])])
    [Json.obj [("id", .str "f1"), ("name", .str "W")]]
    [Json.obj [("name", .str "w1.txt"), ("folderId", .str "f1")],
     Json.obj [("name", .str "dang.txt"), ("folderId", .str "zzz")]]
    7 3
    ⟨[⟨"F9", "Old", 0⟩, ⟨"F7_0", "W", 7⟩],
     [⟨"D9", "old.txt", "", 0, 0, some "F9"⟩,
      ⟨"D7_0", "w1.txt", "", 7, 7, some "F7_0"⟩,
      ⟨"D7_1", "dang.txt", "", 6, 6, none⟩]⟩
    rfl rfl rfl (by decide)
    (by
      intro g hg j hcontra
      have hgeq : g = (⟨"F9", "Old", 0⟩ : DocFolder) := List.mem_singleton.1 hg
      rw [hgeq] at hcontra
      have hlen : ("F9" : String).length
          = ("F" ++ toString (7 : Int) ++ "_" ++ toString j).length :=
        congrArg String.length hcontra
      rw [String.length_append, String.length_append, String.length_append] at hlen
      have h1 : ("F9" : String).length = 2 := rfl
      have h2 : ("F" : String).length = 1 := rfl
      have h3 : (toString (7 : Int)).length = 1 := rfl
      have h4 : ("_" : String).length = 1 := rfl
      omega)
  exact h


end CopyAI
